import Mathlib

/-!
Verification development for the factorio-cluster-finder repository.

The development shallowly embeds the repository's data model and operations:

* `Node`, `Edge`, `Graph` — the attributed graph model on top of the external
  graph engine (petgraph's `DiGraph`).  The engine graph is embedded as the
  list of its nodes (a node's index is its position) together with the list
  of its edge records (source index, target index, payload), which is exactly
  the data the engine stores; `add_node` appends and returns the fresh index,
  `add_edge` appends an edge record, and the neighbor iterators enumerate the
  edge records incident to an index.  Attribute mappings (Rust `HashMap`)
  are embedded as association lists with insert-overwrites semantics
  (`insertA`/`lookupA`); `HashSet<NodeIndex>` values are embedded as duplicate
  free lists with insert-if-absent (`hsInsert`) and remove (`hsRemove`).
* `DotGraph` — the graph wrapper of `src/graphviz/graph.rs` with its two
  memoized caches; `DotGraph.idMapCall`/`DotGraph.labelMapCall` embed the
  memoizing accessors (the `RefCell` interior mutation becomes explicit state
  passing) and `DotGraph.derefMut`/`DotGraph.mutate` embed the `DerefMut`
  implementation that discards both caches before handing out mutable access.
* `DotGraphBuilder` — the two-phase builder of `src/graphviz/builder.rs`.
  The Rust edge-derivation closure may panic (it unwraps id-map lookups), so
  its embedded type returns an `Option`; `build` therefore returns an
  `Option DotGraph` where `none` is a panic.
* `statementsPartition`, `addExplicitNodes`, `addImplicitNodes`,
  `parseEdgeFn`, `parse` — the statement-list-to-graph conversion of
  `src/graphviz/dot.rs` (the PEG text grammar itself is generated code
  outside the repository sources; `parse` here starts from the parsed
  `GraphInternal` statement list exactly where the repository's own code
  takes over).
* `score`, `subgraph_neighbors_with_duplicates`, `growthPass`, `stallHandle`,
  `mainLoop` — the greedy cluster-growth algorithm of `src/main.rs`.
  `mainLoop` is fuel-indexed; `LoopOut.panicked` marks the two panics in the
  stall branch (`scores[0]` on an empty score list and the unwrap of
  `node_set.iter().next()`), and `LoopOut.fuelOut` marks fuel exhaustion.
-/

/-- A node of the dot graph: id plus attribute mapping (`src/graphviz/graph.rs`). -/
structure Node where
  id : String
  attributes : List (String × String)
deriving DecidableEq, Repr

/-- An edge payload: the attribute mapping only; endpoints live in the engine
graph (`src/graphviz/graph.rs`). -/
structure Edge where
  attributes : List (String × String)
deriving DecidableEq, Repr

/-- An engine edge record: endpoints plus payload, as stored by the engine graph. -/
structure EdgeRec where
  src : Nat
  tgt : Nat
  edge : Edge
deriving DecidableEq, Repr

/-- The engine graph (petgraph `DiGraph<Node, Edge>`): node list (a node's
index is its position) and edge-record list. -/
structure Graph where
  nodes : List Node
  edges : List EdgeRec
deriving DecidableEq, Repr

/-- Engine `add_node`: appends the node and returns the fresh index. -/
def Graph.addNode (g : Graph) (n : Node) : Graph × Nat :=
  ({ g with nodes := g.nodes ++ [n] }, g.nodes.length)

/-- Engine `add_edge`: appends an edge record. -/
def Graph.addEdge (g : Graph) (src tgt : Nat) (e : Edge) : Graph :=
  { g with edges := g.edges ++ [⟨src, tgt, e⟩] }

/-- Engine `node_indices`. -/
def Graph.nodeIndices (g : Graph) : List Nat :=
  List.range g.nodes.length

/-- Engine node indexing `graph[ix]`. -/
def Graph.nodeAt (g : Graph) (ix : Nat) : Node :=
  g.nodes.getD ix ⟨"", []⟩

/-- Engine `neighbors_directed(ix, Outgoing)`: targets of edges with source `ix`. -/
def Graph.neighborsOutgoing (g : Graph) (ix : Nat) : List Nat :=
  (g.edges.filter (fun e => e.src == ix)).map (fun e => e.tgt)

/-- Engine `neighbors_directed(ix, Incoming)`: sources of edges with target `ix`. -/
def Graph.neighborsIncoming (g : Graph) (ix : Nat) : List Nat :=
  (g.edges.filter (fun e => e.tgt == ix)).map (fun e => e.src)

/-- Engine `neighbors_undirected(ix)`: all adjacent indices, one per incident edge. -/
def Graph.neighborsUndirected (g : Graph) (ix : Nat) : List Nat :=
  g.neighborsOutgoing ix ++ g.neighborsIncoming ix

/-- `HashMap` insert: overwrite the value when the key is present, otherwise add the pair. -/
def insertA {α : Type} (m : List (String × α)) (k : String) (v : α) : List (String × α) :=
  if (m.find? (fun p => p.1 == k)).isSome then
    m.map (fun p => if p.1 == k then (k, v) else p)
  else
    m ++ [(k, v)]

/-- `HashMap` lookup. -/
def lookupA {α : Type} (m : List (String × α)) (k : String) : Option α :=
  (m.find? (fun p => p.1 == k)).map (fun p => p.2)

/-- `HashMap::extend`: insert every pair of `l`, later pairs overwriting earlier ones. -/
def extendA {α : Type} (m : List (String × α)) (l : List (String × α)) : List (String × α) :=
  l.foldl (fun m p => insertA m p.1 p.2) m

/-- `HashSet<NodeIndex>` insert: append the element unless it is already present. -/
def hsInsert (s : List Nat) (x : Nat) : List Nat :=
  if s.contains x then s else s ++ [x]

/-- `HashSet<NodeIndex>` remove. -/
def hsRemove (s : List Nat) (x : Nat) : List Nat :=
  s.filter (fun y => !(y == x))

/-- `graph` vs `digraph` (`src/graphviz/graph.rs`). -/
inductive GraphType where
  | graph
  | digraph
deriving DecidableEq, Repr

/-- The `DotGraph` wrapper (`src/graphviz/graph.rs`): dot-level metadata, the
owned engine graph, and the two lazily computed caches. -/
structure DotGraph where
  strict : Bool
  _type : GraphType
  id : Option String
  graph_attributes : List (String × String)
  node_attributes : List (String × String)
  edge_attributes : List (String × String)
  graph : Graph
  label_map : Option (List (String × Nat))
  id_map : Option (List (String × Nat))
deriving DecidableEq

/-- `DotGraph::new`: stores the parts; both caches start out empty. -/
def DotGraph.new (strict : Bool) (_type : GraphType) (id : Option String)
    (graph_attributes node_attributes edge_attributes : List (String × String))
    (graph : Graph) : DotGraph :=
  ⟨strict, _type, id, graph_attributes, node_attributes, edge_attributes, graph, none, none⟩

/-- The full recomputation performed by `DotGraph::id_map` on a cache miss:
walk `node_indices()` and collect `(node.id, index)` pairs into a `HashMap`. -/
def computeIdMap (g : Graph) : List (String × Nat) :=
  ((g.nodeIndices.map (fun ix => ((g.nodeAt ix).id, ix))).foldl
    (fun m p => insertA m p.1 p.2) [])

/-- The full recomputation performed by `DotGraph::label_map` on a cache miss:
walk `node_indices()` and collect `(label, index)` for every node defining a
`label` attribute. -/
def computeLabelMap (g : Graph) : List (String × Nat) :=
  ((g.nodeIndices.filterMap
      (fun ix => (lookupA (g.nodeAt ix).attributes "label").map (fun l => (l, ix)))).foldl
    (fun m p => insertA m p.1 p.2) [])

/-- `DotGraph::id_map()`: return the memoized map when present, otherwise
recompute and memoize it.  The `RefCell` interior mutation becomes explicit
state passing: the call returns the map together with the updated wrapper. -/
def DotGraph.idMapCall (dg : DotGraph) : List (String × Nat) × DotGraph :=
  match dg.id_map with
  | some m => (m, dg)
  | none =>
    let m := computeIdMap dg.graph
    (m, { dg with id_map := some m })

/-- `DotGraph::label_map()`: same contract as `idMapCall`, keyed by labels. -/
def DotGraph.labelMapCall (dg : DotGraph) : List (String × Nat) × DotGraph :=
  match dg.label_map with
  | some m => (m, dg)
  | none =>
    let m := computeLabelMap dg.graph
    (m, { dg with label_map := some m })

/-- The `DerefMut` impl for `DotGraph`: clears both caches before granting
mutable access to the engine graph. -/
def DotGraph.derefMut (dg : DotGraph) : DotGraph :=
  { dg with id_map := none, label_map := none }

/-- A structural mutation performed through `DerefMut`: the caches are cleared
and the mutation acts on the engine graph. -/
def DotGraph.mutate (dg : DotGraph) (f : Graph → Graph) : DotGraph :=
  { dg.derefMut with graph := f dg.derefMut.graph }


/-- An operation on the wrapper: a structural mutation through `DerefMut`
(e.g. `add_node`/`add_edge` on the dereferenced engine graph) or one of the
two memoizing map reads. -/
inductive GraphOp where
  | mutate (f : Graph → Graph)
  | queryId
  | queryLabel

/-- The log of one map read: which map was read, the returned mapping, and the
engine graph as it stood at call time. -/
structure QueryLog where
  isId : Bool
  result : List (String × Nat)
  graphAtCall : Graph
deriving DecidableEq

/-- Runs a sequence of wrapper operations, logging every map read. -/
def runOps (dg : DotGraph) : List GraphOp → DotGraph × List QueryLog
  | [] => (dg, [])
  | GraphOp.mutate f :: rest => runOps (dg.mutate f) rest
  | GraphOp.queryId :: rest =>
    let (m, dg1) := dg.idMapCall
    let (dgf, logs) := runOps dg1 rest
    (dgf, ⟨true, m, dg.graph⟩ :: logs)
  | GraphOp.queryLabel :: rest =>
    let (m, dg1) := dg.labelMapCall
    let (dgf, logs) := runOps dg1 rest
    (dgf, ⟨false, m, dg.graph⟩ :: logs)

/-- A memoized cache, when present, holds exactly the recomputation over the
current engine graph. -/
def CacheConsistent (dg : DotGraph) : Prop :=
  (dg.id_map = none ∨ dg.id_map = some (computeIdMap dg.graph)) ∧
  (dg.label_map = none ∨ dg.label_map = some (computeLabelMap dg.graph))

instance (dg : DotGraph) : Decidable (CacheConsistent dg) := by
  unfold CacheConsistent
  infer_instance

/-- The builder of `src/graphviz/builder.rs`.  The edge-derivation closure may
panic (the repository's own closure unwraps id-map lookups), so the embedded
closure type returns an `Option`. -/
structure DotGraphBuilder where
  strict : Option Bool
  _type : GraphType
  id : Option (Option String)
  graph_attributes : Option (List (String × String))
  node_attributes : Option (List (String × String))
  edge_attributes : Option (List (String × String))
  nodes : Option (List Node)
  edges : Option (List (Edge × Nat × Nat))
  edges_fn : Option (DotGraph → Option (List (Edge × Nat × Nat)))
  graph : Option Graph

/-- `DotGraphBuilder::new`. -/
def DotGraphBuilder.new (_type : GraphType) : DotGraphBuilder :=
  ⟨none, _type, none, none, none, none, none, none, none, none⟩

/-- `DotGraphBuilder::strict`. -/
def DotGraphBuilder.set_strict (b : DotGraphBuilder) (strict : Bool) : DotGraphBuilder :=
  { b with strict := some strict }

/-- `DotGraphBuilder::id`. -/
def DotGraphBuilder.set_id (b : DotGraphBuilder) (id : Option String) : DotGraphBuilder :=
  { b with id := some id }

/-- `DotGraphBuilder::graph_attributes`. -/
def DotGraphBuilder.set_graph_attributes (b : DotGraphBuilder)
    (attrs : List (String × String)) : DotGraphBuilder :=
  { b with graph_attributes := some attrs }

/-- `DotGraphBuilder::node_attributes`. -/
def DotGraphBuilder.set_node_attributes (b : DotGraphBuilder)
    (attrs : List (String × String)) : DotGraphBuilder :=
  { b with node_attributes := some attrs }

/-- `DotGraphBuilder::edge_attributes`. -/
def DotGraphBuilder.set_edge_attributes (b : DotGraphBuilder)
    (attrs : List (String × String)) : DotGraphBuilder :=
  { b with edge_attributes := some attrs }

/-- `DotGraphBuilder::graph`. -/
def DotGraphBuilder.set_graph (b : DotGraphBuilder) (graph : Graph) : DotGraphBuilder :=
  { b with graph := some graph }

/-- `DotGraphBuilder::nodes`. -/
def DotGraphBuilder.set_nodes (b : DotGraphBuilder) (nodes : List Node) : DotGraphBuilder :=
  { b with nodes := some nodes }

/-- `DotGraphBuilder::edges`. -/
def DotGraphBuilder.set_edges (b : DotGraphBuilder)
    (edges : List (Edge × Nat × Nat)) : DotGraphBuilder :=
  { b with edges := some edges }

/-- `DotGraphBuilder::edges_fn`. -/
def DotGraphBuilder.set_edges_fn (b : DotGraphBuilder)
    (edges_fn : DotGraph → Option (List (Edge × Nat × Nat))) : DotGraphBuilder :=
  { b with edges_fn := some edges_fn }

/-- Steps (1)-(3) of `DotGraphBuilder::build`: take the supplied or default
engine graph, insert all initial nodes, then all initial edges, then construct
the wrapper. -/
def DotGraphBuilder.base (b : DotGraphBuilder) : DotGraph :=
  let graph := b.graph.getD ⟨[], []⟩
  let graph := match b.nodes with
    | some nodes => nodes.foldl (fun g n => (g.addNode n).1) graph
    | none => graph
  let graph := match b.edges with
    | some edges => edges.foldl (fun g e => g.addEdge e.2.1 e.2.2 e.1) graph
    | none => graph
  DotGraph.new (b.strict.getD false) b._type (b.id.getD none)
    (b.graph_attributes.getD []) (b.node_attributes.getD []) (b.edge_attributes.getD [])
    graph

/-- `DotGraphBuilder::build`: after steps (1)-(3) (`base`), invoke the
edge-derivation closure, if any, on the wrapper-so-far and add every returned
edge through the wrapper (each `add_edge` goes through `DerefMut`).  A `none`
result is the closure panicking. -/
def DotGraphBuilder.build (b : DotGraphBuilder) : Option DotGraph :=
  match b.edges_fn with
  | none => some b.base
  | some edges_fn =>
    (edges_fn b.base).map (fun edges =>
      edges.foldl (fun dg e => dg.mutate (fun g => g.addEdge e.2.1 e.2.2 e.1)) b.base)

/-- Immediate representation of the type of a global attribute (`src/graphviz/dot.rs`). -/
inductive AttributeType where
  | graph
  | node
  | edge
deriving DecidableEq, Repr

/-- Immediate representation of a global graph attribute. -/
structure GlobalAttribute where
  _type : AttributeType
  attributes : List (String × String)
deriving DecidableEq, Repr

/-- Immediate representation of an edge statement: attributes plus the ordered
chain of referenced node ids. -/
structure EdgeInternal where
  attributes : List (String × String)
  nodes : List String
deriving DecidableEq, Repr

/-- A dot language `stmt`. -/
inductive Statement where
  | node (node : Node)
  | edge (edge : EdgeInternal)
  | globalAttribute (attr : GlobalAttribute)
deriving DecidableEq, Repr

/-- Immediate representation of a parsed graph. -/
structure GraphInternal where
  strict : Bool
  _type : GraphType
  id : Option String
  statements : List Statement
deriving DecidableEq, Repr

/-- The statement-draining loop of `parse`: merge global attribute blocks by
key (later values overwrite) and collect node and edge statements in order. -/
def statementsPartition (stmts : List Statement) :
    List (String × String) × List (String × String) × List (String × String) ×
    List Node × List EdgeInternal :=
  stmts.foldl (fun acc stmt =>
    let (graph_attributes, node_attributes, edge_attributes, nodes, edges) := acc
    match stmt with
    | Statement.globalAttribute attr =>
      match attr._type with
      | AttributeType.graph =>
        (extendA graph_attributes attr.attributes, node_attributes, edge_attributes, nodes, edges)
      | AttributeType.node =>
        (graph_attributes, extendA node_attributes attr.attributes, edge_attributes, nodes, edges)
      | AttributeType.edge =>
        (graph_attributes, node_attributes, extendA edge_attributes attr.attributes, nodes, edges)
    | Statement.node n => (graph_attributes, node_attributes, edge_attributes, nodes ++ [n], edges)
    | Statement.edge e => (graph_attributes, node_attributes, edge_attributes, nodes, edges ++ [e]))
    ([], [], [], [], [])

/-- The explicit-node loop of `parse`: add each declared node unless its id
was seen before (first occurrence wins), tracking seen ids in `node_id_set`. -/
def addExplicitNodes (nodes : List Node) (st : List String × Graph) : List String × Graph :=
  nodes.foldl (fun st node =>
    let (node_id_set, graph) := st
    if node_id_set.contains node.id then st
    else (node_id_set ++ [node.id], (graph.addNode node).1)) st

/-- The body of the implicit-node loop of `parse`: an id not seen yet becomes
a node with empty attributes. -/
def addNodeIfAbsent (st : List String × Graph) (node_id : String) : List String × Graph :=
  let (node_id_set, graph) := st
  if node_id_set.contains node_id then st
  else (node_id_set ++ [node_id], (graph.addNode ⟨node_id, []⟩).1)

/-- The implicit-node loop of `parse`: any id referenced by an edge but not
seen yet becomes a node with empty attributes. -/
def addImplicitNodes (edges : List EdgeInternal) (st : List String × Graph) :
    List String × Graph :=
  edges.foldl (fun st e => e.nodes.foldl addNodeIfAbsent st) st

/-- The relation maintained by both node-insertion loops of `parse`:
`node_id_set` holds exactly the ids of the nodes added to the graph so far. -/
def InvNodeIds (st : List String × Graph) : Prop :=
  ∀ s, s ∈ st.1 ↔ s ∈ st.2.nodes.map Node.id

/-- The `edge_fn` closure of `parse`: split each edge chain into consecutive
pairs, resolve both endpoints through `id_map()`, and unwrap the lookups
(`none` is the unwrap panicking). -/
def parseEdgeFn (edges : List EdgeInternal) (dg : DotGraph) :
    Option (List (Edge × Nat × Nat)) :=
  (edges.flatMap (fun e =>
      (e.nodes.zip e.nodes.tail).map (fun p => (e.attributes, p.1, p.2)))).mapM
    (fun t =>
      match lookupA dg.idMapCall.1 t.2.1, lookupA dg.idMapCall.1 t.2.2 with
      | some si, some ti => some (⟨t.1⟩, si, ti)
      | _, _ => none)

/-- `parse` of `src/graphviz/dot.rs`, starting from the parsed statement list:
partition the statements, add explicit then implicit nodes, and hand
everything to the builder with `parseEdgeFn` as the edge-derivation step. -/
def parse (gi : GraphInternal) : Option DotGraph :=
  let (graph_attributes, node_attributes, edge_attributes, nodes, edges) :=
    statementsPartition gi.statements
  let (_, graph) := addImplicitNodes edges (addExplicitNodes nodes ([], ⟨[], []⟩))
  ((((((((DotGraphBuilder.new gi._type).set_strict gi.strict).set_id
    gi.id).set_graph_attributes graph_attributes).set_node_attributes
    node_attributes).set_edge_attributes edge_attributes).set_graph
    graph).set_edges_fn (parseEdgeFn edges)).build


/-- `subgraph_neighbors_with_duplicates` of `src/main.rs`: flat-map the
undirected neighbors of every cluster member and drop members; one occurrence
per (member, incident edge), so the same candidate may appear several times. -/
def subgraph_neighbors_with_duplicates (subgraph : List Nat) (graph : Graph) : List Nat :=
  (subgraph.flatMap (fun node_idx => graph.neighborsUndirected node_idx)).filter
    (fun neighbor_idx => !(subgraph.contains neighbor_idx))

/-- `score` of `src/main.rs`: `num_deps` counts, over all cluster members, the
outgoing neighbors that lie outside the cluster (one per edge, no
deduplication); `num_outputs` counts the members that have some incoming
neighbor outside the cluster and some outgoing neighbor inside it. -/
def score (subgraph : List Nat) (graph : Graph) : Nat × Nat :=
  let num_deps :=
    (subgraph.map (fun node_idx =>
      ((graph.neighborsOutgoing node_idx).filter
        (fun neighbor_idx => !(subgraph.contains neighbor_idx))).length)).sum
  let num_outputs :=
    ((subgraph.filter (fun node_idx =>
        (graph.neighborsIncoming node_idx).any
          (fun neighbor_idx => !(subgraph.contains neighbor_idx)))).filter
      (fun node_ix =>
        (graph.neighborsOutgoing node_ix).any
          (fun neighbor_ix => subgraph.contains neighbor_ix))).length
  (num_deps, num_outputs)

/-- Modelled from the spec's words, for comparison with `score`: the number of
distinct external nodes the cluster consumes via outgoing edges (an external
target reached by several members or by parallel edges counts once). -/
def numDepsDistinct (subgraph : List Nat) (graph : Graph) : Nat :=
  (((graph.edges.filter (fun e =>
      subgraph.contains e.src && !(subgraph.contains e.tgt))).map
    (fun e => e.tgt)).dedup).length

/-- A line of the progress trace printed by `main`. -/
inductive TraceEvent where
  | adding (ix : Nat) (s : Nat × Nat)
  | separator
  | lowestWouldHaveBeen (ix : Nat) (s : Nat)
  | startingWith (ix : Nat) (s : Nat × Nat)
deriving DecidableEq, Repr

/-- The mutable state of `main`'s greedy loop: the cluster, the pool of
still-unclustered nodes, the `added_something` flag, and the trace so far. -/
structure GrowState where
  current_cluster : List Nat
  node_set : List Nat
  added_something : Bool
  trace : List TraceEvent
deriving DecidableEq, Repr

/-- The body of the acceptance loop of `main` for one scored candidate:
skip it when it is already in the cluster, otherwise accept it exactly when
its combined score is at most the current combined score or its `num_deps`
matches the current one while its `num_outputs` strictly exceeds it. -/
def acceptStep (current_deps current_outputs : Nat) (st : GrowState)
    (e : Nat × Nat × Nat) : GrowState :=
  let (node_idx, num_deps, num_outputs) := e
  if st.current_cluster.contains node_idx then st
  else if num_deps + num_outputs ≤ current_deps + current_outputs ∨
      (num_deps = current_deps ∧ num_outputs > current_outputs) then
    { st with
      current_cluster := hsInsert st.current_cluster node_idx,
      node_set := hsRemove st.node_set node_idx,
      added_something := true,
      trace := st.trace ++ [TraceEvent.adding node_idx (num_deps, num_outputs)] }
  else st

/-- One pass of `main`'s greedy loop: score every frontier candidate against
the pass-start cluster, then run the acceptance loop; returns the new state
(with the separator trace line appended) and the score list. -/
def growthPass (graph : Graph) (st : GrowState) : GrowState × List (Nat × Nat × Nat) :=
  let scores := (subgraph_neighbors_with_duplicates st.current_cluster graph).map
    (fun node_idx =>
      let s := score (hsInsert st.current_cluster node_idx) graph
      (node_idx, s.1, s.2))
  let (current_deps, current_outputs) := score st.current_cluster graph
  let st1 := scores.foldl (acceptStep current_deps current_outputs)
    { st with added_something := false }
  ({ st1 with trace := st1.trace ++ [TraceEvent.separator] }, scores)

/-- The stall branch of `main`: sort the scores by combined score, index the
first entry (`none` when the list is empty: the `scores[0]` panic), report
every entry tied with it, pick the next seed from the pool (`none` when the
pool is empty: the `unwrap` panic), and reset the cluster to that seed. -/
def stallHandle (graph : Graph) (scores : List (Nat × Nat × Nat)) (st : GrowState) :
    Option GrowState :=
  let sorted := List.insertionSort (fun a b => a.2.1 + a.2.2 ≤ b.2.1 + b.2.2) scores
  match sorted with
  | [] => none
  | lowest :: _ =>
    let lowTrace := sorted.filterMap (fun e =>
      if e.2.1 + e.2.2 ≤ lowest.2.1 + lowest.2.2 then
        some (TraceEvent.lowestWouldHaveBeen e.1 (e.2.1 + e.2.2))
      else none)
    match st.node_set with
    | [] => none
    | next :: _ =>
      let node_set := hsRemove st.node_set next
      let current_cluster := [next]
      some { current_cluster := current_cluster, node_set := node_set,
             added_something := st.added_something,
             trace := st.trace ++ lowTrace ++
               [TraceEvent.startingWith next (score current_cluster graph)] }

/-- The outcome of `main`'s loop. -/
inductive LoopOut where
  | fuelOut
  | panicked
  | done (st : GrowState)
deriving DecidableEq, Repr

/-- A growth pass followed by the stall branch, with no further iteration. -/
def stallOutcome (graph : Graph) (st : GrowState) : LoopOut :=
  let (st1, scores) := growthPass graph st
  match stallHandle graph scores st1 with
  | none => LoopOut.panicked
  | some st2 => LoopOut.done st2

/-- `main`'s greedy loop, fuel-indexed: run a growth pass; iterate while it
accepted something; on a stall run the stall branch and break. -/
def mainLoop (graph : Graph) : Nat → GrowState → LoopOut
  | 0, _ => LoopOut.fuelOut
  | fuel + 1, st =>
    let (st1, scores) := growthPass graph st
    if st1.added_something then mainLoop graph fuel st1
    else match stallHandle graph scores st1 with
      | none => LoopOut.panicked
      | some st2 => LoopOut.done st2


/-- The acceptance condition of the growth step, phrased against the
pass-start cluster: the candidate's combined score is at most the current
combined score, or its `num_deps` is unchanged while its `num_outputs`
strictly increases. -/
def acceptCond (graph : Graph) (cluster : List Nat) (node_idx : Nat) : Prop :=
  (score (hsInsert cluster node_idx) graph).1 + (score (hsInsert cluster node_idx) graph).2 ≤
      (score cluster graph).1 + (score cluster graph).2 ∨
    ((score (hsInsert cluster node_idx) graph).1 = (score cluster graph).1 ∧
      (score (hsInsert cluster node_idx) graph).2 > (score cluster graph).2)

example : computeIdMap ⟨[⟨"a", []⟩, ⟨"b", []⟩], []⟩ = [("a", 0), ("b", 1)] := by decide

example : computeLabelMap ⟨[⟨"a", [("label", "x")]⟩, ⟨"b", []⟩], []⟩ = [("x", 0)] := by decide

example :
    (parse ⟨false, GraphType.digraph, none,
      [Statement.edge ⟨[], ["x", "y"]⟩]⟩).map (fun dg => dg.graph) =
    some ⟨[⟨"x", []⟩, ⟨"y", []⟩], [⟨0, 1, ⟨[]⟩⟩]⟩ := by decide

example : score [0] ⟨[⟨"A", []⟩, ⟨"B", []⟩], [⟨0, 1, ⟨[]⟩⟩]⟩ = (1, 0) := by decide

example : score [0, 1] ⟨[⟨"A", []⟩, ⟨"B", []⟩], [⟨0, 1, ⟨[]⟩⟩]⟩ = (0, 0) := by decide

example :
    (growthPass ⟨[⟨"A", []⟩, ⟨"B", []⟩], [⟨0, 1, ⟨[]⟩⟩]⟩
      ⟨[0], [1], false, []⟩).1.current_cluster = [0, 1] := by decide

example : score [0, 1] ⟨[⟨"A", []⟩, ⟨"B", []⟩, ⟨"C", []⟩], [⟨0, 2, ⟨[]⟩⟩, ⟨1, 2, ⟨[]⟩⟩]⟩
    = (2, 0) := by decide

lemma sum_map_add_distrib (c : List Nat) (f g : Nat → Nat) :
    (c.map (fun ix => f ix + g ix)).sum = (c.map f).sum + (c.map g).sum := by
  induction c with
  | nil => simp
  | cons x c ih => simp [ih]; omega

lemma sum_map_indicator_src (c : List Nat) (a : Nat) :
    (c.map (fun ix => if a == ix then 1 else 0)).sum =
      (c.filter (fun ix => a == ix)).length := by
  induction c with
  | nil => simp
  | cons x cs ihc =>
    simp only [List.map_cons, List.sum_cons, List.filter_cons, ihc]
    by_cases hx : a = x
    · simp [hx]
      omega
    · have hbeq : (a == x) = false := by simpa using hx
      simp [hbeq]

lemma filter_beq_length_of_nodup (c : List Nat) (h : c.Nodup) (a : Nat) :
    (c.filter (fun ix => a == ix)).length = if a ∈ c then 1 else 0 := by
  induction c with
  | nil => simp
  | cons x c ih =>
    rcases List.nodup_cons.1 h with ⟨hx, hc⟩
    by_cases hax : a = x
    · subst hax
      have hnil : c.filter (fun ix => a == ix) = [] := by
        rw [List.filter_eq_nil_iff]
        intro b hb hab
        exact hx ((beq_iff_eq.1 hab) ▸ hb)
      simp [List.filter_cons, hnil]
    · have hbeq : (a == x) = false := by simpa using hax
      simp [List.filter_cons, hbeq, ih hc, hax]

lemma num_deps_eq_edge_filter (es : List EdgeRec) (c : List Nat) (h : c.Nodup) :
    (c.map (fun ix =>
      (((es.filter (fun e => e.src == ix)).map (fun e => e.tgt)).filter
        (fun t => !(c.contains t))).length)).sum =
    (es.filter (fun e => c.contains e.src && !(c.contains e.tgt))).length := by
  induction es with
  | nil => simp
  | cons e es ih =>
    have step : ∀ ix : Nat,
        (((List.filter (fun e => e.src == ix) (e :: es)).map (fun e => e.tgt)).filter
          (fun t => !(c.contains t))).length =
        (if (!(c.contains e.tgt)) && (e.src == ix) then 1 else 0) +
        (((es.filter (fun e => e.src == ix)).map (fun e => e.tgt)).filter
          (fun t => !(c.contains t))).length := by
      intro ix
      by_cases hsrc : e.src = ix
      · by_cases htgt : e.tgt ∈ c
        · simp [List.filter_cons, hsrc, htgt]
        · simp [List.filter_cons, hsrc, htgt]
          omega
      · have hbeq : (e.src == ix) = false := by simpa using hsrc
        simp [List.filter_cons, hbeq]
    have lhs :
        (c.map (fun ix =>
          (((List.filter (fun e => e.src == ix) (e :: es)).map (fun e => e.tgt)).filter
            (fun t => !(c.contains t))).length)).sum =
        (c.map (fun ix => if (!(c.contains e.tgt)) && (e.src == ix) then 1 else 0)).sum +
        (c.map (fun ix =>
          (((es.filter (fun e => e.src == ix)).map (fun e => e.tgt)).filter
            (fun t => !(c.contains t))).length)).sum := by
      rw [← sum_map_add_distrib]
      exact congrArg List.sum (List.map_congr_left (fun ix _ => step ix))
    rw [lhs, ih]
    by_cases htgt : e.tgt ∈ c
    · simp [List.filter_cons, htgt]
    · have hbt : (c.contains e.tgt) = false := by
        simpa using htgt
      have hind : (c.map (fun ix => if (!(c.contains e.tgt)) && (e.src == ix) then 1 else 0)).sum
          = (c.filter (fun ix => e.src == ix)).length := by
        rw [hbt]
        simp only [Bool.not_false, Bool.true_and]
        exact sum_map_indicator_src c e.src
      rw [hind, filter_beq_length_of_nodup c h e.src, List.filter_cons]
      by_cases hsrc : e.src ∈ c
      · simp [hsrc, htgt]
        omega
      · simp [hsrc, htgt]

/-- C2 counterexample: in the graph with nodes `A`, `B`, `C` and edges
`A -> C`, `B -> C`, the cluster containing `A` and `B` consumes exactly one
distinct external node (`C`), but `num_deps` evaluates to 2 (one per edge),
so `num_deps` is not the number of distinct external nodes consumed. -/
theorem C2_counterexample :
    (score [0, 1] ⟨[⟨"A", []⟩, ⟨"B", []⟩, ⟨"C", []⟩], [⟨0, 2, ⟨[]⟩⟩, ⟨1, 2, ⟨[]⟩⟩]⟩).1 ≠
    numDepsDistinct [0, 1] ⟨[⟨"A", []⟩, ⟨"B", []⟩, ⟨"C", []⟩], [⟨0, 2, ⟨[]⟩⟩, ⟨1, 2, ⟨[]⟩⟩]⟩ := by
  decide

/-- C2 (amended): for every graph and duplicate-free cluster, `num_deps`
equals the number of outgoing edges from cluster members whose target lies
outside the cluster, counted with multiplicity — one per edge, so an external
target reached by several members or by parallel edges counts once per edge,
not once. -/
theorem C2_num_deps_counts_edge_occurrences (graph : Graph) (subgraph : List Nat)
    (h : subgraph.Nodup) :
    (score subgraph graph).1 =
      (graph.edges.filter (fun e =>
        subgraph.contains e.src && !(subgraph.contains e.tgt))).length := by
  unfold score Graph.neighborsOutgoing
  exact num_deps_eq_edge_filter graph.edges subgraph h

/-- C2 witness: the amended theorem evaluated on the two-edges-into-`C` graph. -/
theorem C2_witness :
    ([0, 1] : List Nat).Nodup ∧
    (score [0, 1] ⟨[⟨"A", []⟩, ⟨"B", []⟩, ⟨"C", []⟩], [⟨0, 2, ⟨[]⟩⟩, ⟨1, 2, ⟨[]⟩⟩]⟩).1 =
      ((⟨[⟨"A", []⟩, ⟨"B", []⟩, ⟨"C", []⟩],
        [⟨0, 2, ⟨[]⟩⟩, ⟨1, 2, ⟨[]⟩⟩]⟩ : Graph).edges.filter (fun e =>
          ([0, 1] : List Nat).contains e.src && !(([0, 1] : List Nat).contains e.tgt))).length :=
  ⟨by decide, C2_num_deps_counts_edge_occurrences _ [0, 1] (by decide)⟩

/-- C4 counterexample: in the graph with nodes `A`, `B`, `C` and edges
`A -> C`, `B -> C`, the frontier of the cluster containing `A` and `B`
contains candidate `C` twice (once per adjacency), not exactly once, and the
pass scores it twice. -/
theorem C4_counterexample :
    (subgraph_neighbors_with_duplicates [0, 1]
        ⟨[⟨"A", []⟩, ⟨"B", []⟩, ⟨"C", []⟩], [⟨0, 2, ⟨[]⟩⟩, ⟨1, 2, ⟨[]⟩⟩]⟩).count 2 ≠ 1 ∧
    ((growthPass ⟨[⟨"A", []⟩, ⟨"B", []⟩, ⟨"C", []⟩], [⟨0, 2, ⟨[]⟩⟩, ⟨1, 2, ⟨[]⟩⟩]⟩
        ⟨[0, 1], [2], false, []⟩).2.map (fun e => e.1)).count 2 ≠ 1 := by
  decide

/-- C4 (amended): the candidate frontier contains exactly the nodes adjacent
(ignoring edge direction) to some cluster member and not themselves members,
but with one occurrence per (member, incident edge) rather than deduplicated,
so a candidate adjacent to several members (or via parallel edges) is scored
once per occurrence. -/
theorem C4_frontier_membership (graph : Graph) (subgraph : List Nat) (i : Nat) :
    i ∈ subgraph_neighbors_with_duplicates subgraph graph ↔
      (∃ m ∈ subgraph, i ∈ graph.neighborsUndirected m) ∧ i ∉ subgraph := by
  unfold subgraph_neighbors_with_duplicates
  rw [List.mem_filter, List.mem_flatMap]
  simp

lemma hsInsert_mem (s : List Nat) (x i : Nat) : i ∈ hsInsert s x ↔ i = x ∨ i ∈ s := by
  unfold hsInsert
  by_cases h : x ∈ s
  · simp only [List.contains_iff_exists_mem_beq]
    rw [if_pos (by exact ⟨x, h, by simp⟩)]
    constructor
    · exact fun hi => Or.inr hi
    · rintro (rfl | hi)
      · exact h
      · exact hi
  · have hc : s.contains x = false := by
      simpa using h
    rw [hc]
    simp only [Bool.false_eq_true, if_false, List.mem_append, List.mem_singleton]
    exact Or.comm

lemma acceptStep_mem (cd co : Nat) (st : GrowState) (e : Nat × Nat × Nat) (i : Nat) :
    i ∈ (acceptStep cd co st e).current_cluster ↔
      i ∈ st.current_cluster ∨
        (e.1 = i ∧ (e.2.1 + e.2.2 ≤ cd + co ∨ (e.2.1 = cd ∧ e.2.2 > co))) := by
  obtain ⟨node_idx, num_deps, num_outputs⟩ := e
  unfold acceptStep
  dsimp only
  by_cases hmem : node_idx ∈ st.current_cluster
  · rw [if_pos (by simpa using hmem)]
    constructor
    · exact fun hi => Or.inl hi
    · rintro (hi | ⟨rfl, _⟩)
      · exact hi
      · exact hmem
  · have hc : st.current_cluster.contains node_idx = false := by simpa using hmem
    rw [hc]
    simp only [Bool.false_eq_true, if_false]
    by_cases hcond : num_deps + num_outputs ≤ cd + co ∨ (num_deps = cd ∧ num_outputs > co)
    · rw [if_pos hcond]
      show i ∈ hsInsert st.current_cluster node_idx ↔ _
      rw [hsInsert_mem]
      constructor
      · rintro (rfl | hi)
        · exact Or.inr ⟨rfl, hcond⟩
        · exact Or.inl hi
      · rintro (hi | ⟨rfl, _⟩)
        · exact Or.inr hi
        · exact Or.inl rfl
    · rw [if_neg hcond]
      constructor
      · exact fun hi => Or.inl hi
      · rintro (hi | ⟨rfl, hcond2⟩)
        · exact hi
        · exact absurd hcond2 hcond

lemma acceptFold_mem (cd co : Nat) (L : List (Nat × Nat × Nat)) (st : GrowState) (i : Nat) :
    i ∈ (L.foldl (acceptStep cd co) st).current_cluster ↔
      i ∈ st.current_cluster ∨
        ∃ e ∈ L, e.1 = i ∧ (e.2.1 + e.2.2 ≤ cd + co ∨ (e.2.1 = cd ∧ e.2.2 > co)) := by
  induction L generalizing st with
  | nil => simp
  | cons e L ih =>
    rw [List.foldl_cons, ih, acceptStep_mem]
    constructor
    · rintro ((hi | he) | ⟨f, hf, hcond⟩)
      · exact Or.inl hi
      · exact Or.inr ⟨e, List.mem_cons_self e L, he⟩
      · exact Or.inr ⟨f, List.mem_cons_of_mem e hf, hcond⟩
    · rintro (hi | ⟨f, hf, hcond⟩)
      · exact Or.inl (Or.inl hi)
      · rcases List.mem_cons.1 hf with rfl | hf
        · exact Or.inl (Or.inr hcond)
        · exact Or.inr ⟨f, hf, hcond⟩

lemma growthPass_mem (graph : Graph) (st : GrowState) (i : Nat) :
    i ∈ (growthPass graph st).1.current_cluster ↔
      i ∈ st.current_cluster ∨
        (i ∈ subgraph_neighbors_with_duplicates st.current_cluster graph ∧
          acceptCond graph st.current_cluster i) := by
  have h := acceptFold_mem (score st.current_cluster graph).1 (score st.current_cluster graph).2
    ((subgraph_neighbors_with_duplicates st.current_cluster graph).map
      (fun node_idx => (node_idx, (score (hsInsert st.current_cluster node_idx) graph).1,
        (score (hsInsert st.current_cluster node_idx) graph).2)))
    { st with added_something := false } i
  have hshape : i ∈ (growthPass graph st).1.current_cluster ↔
      i ∈ (((subgraph_neighbors_with_duplicates st.current_cluster graph).map
        (fun node_idx => (node_idx, (score (hsInsert st.current_cluster node_idx) graph).1,
          (score (hsInsert st.current_cluster node_idx) graph).2))).foldl
        (acceptStep (score st.current_cluster graph).1 (score st.current_cluster graph).2)
        { st with added_something := false }).current_cluster := Iff.rfl
  rw [hshape, h]
  constructor
  · rintro (hi | ⟨e, he, rfl, hcond⟩)
    · exact Or.inl hi
    · rcases List.mem_map.1 he with ⟨j, hj, hje⟩
      cases hje
      exact Or.inr ⟨hj, hcond⟩
  · rintro (hi | ⟨hmem, hcond⟩)
    · exact Or.inl hi
    · exact Or.inr ⟨(i, (score (hsInsert st.current_cluster i) graph).1,
        (score (hsInsert st.current_cluster i) graph).2),
        List.mem_map_of_mem _ hmem, rfl, hcond⟩

/-- C3: a frontier candidate ends up in the cluster after a growth pass
exactly when it already was a member or its one-more-node score satisfies the
acceptance condition (combined score not above the pass-start combined score,
or equal `num_deps` with strictly larger `num_outputs`); in particular, for
the two-node graph `A -> B` with cluster containing only `A`,
`score [A] = (1, 0)`, `score [A, B] = (0, 0)`, and `B` is accepted. -/
theorem C3_growth_acceptance :
    (∀ (graph : Graph) (st : GrowState) (i : Nat),
      i ∈ (growthPass graph st).1.current_cluster ↔
        i ∈ st.current_cluster ∨
          (i ∈ subgraph_neighbors_with_duplicates st.current_cluster graph ∧
            acceptCond graph st.current_cluster i)) ∧
    score [0] ⟨[⟨"A", []⟩, ⟨"B", []⟩], [⟨0, 1, ⟨[]⟩⟩]⟩ = (1, 0) ∧
    score [0, 1] ⟨[⟨"A", []⟩, ⟨"B", []⟩], [⟨0, 1, ⟨[]⟩⟩]⟩ = (0, 0) ∧
    (growthPass ⟨[⟨"A", []⟩, ⟨"B", []⟩], [⟨0, 1, ⟨[]⟩⟩]⟩
      ⟨[0], [1], false, []⟩).1.current_cluster = [0, 1] :=
  ⟨growthPass_mem, by decide, by decide, by decide⟩

lemma acceptStep_eq_of_not_added (cd co : Nat) (st : GrowState) (e : Nat × Nat × Nat)
    (h : (acceptStep cd co st e).added_something = false) : acceptStep cd co st e = st := by
  obtain ⟨node_idx, num_deps, num_outputs⟩ := e
  unfold acceptStep at h ⊢
  dsimp only at h ⊢
  by_cases hmem : st.current_cluster.contains node_idx
  · rw [if_pos hmem] at h ⊢
  · rw [if_neg hmem] at h ⊢
    by_cases hcond : num_deps + num_outputs ≤ cd + co ∨ (num_deps = cd ∧ num_outputs > co)
    · rw [if_pos hcond] at h
      simp at h
    · rw [if_neg hcond]

lemma acceptStep_added_monotone (cd co : Nat) (st : GrowState) (e : Nat × Nat × Nat)
    (h : st.added_something = true) : (acceptStep cd co st e).added_something = true := by
  obtain ⟨node_idx, num_deps, num_outputs⟩ := e
  unfold acceptStep
  dsimp only
  split
  · exact h
  · split
    · rfl
    · exact h

lemma acceptFold_eq_of_not_added (cd co : Nat) (L : List (Nat × Nat × Nat)) (st : GrowState)
    (h : (L.foldl (acceptStep cd co) st).added_something = false) :
    L.foldl (acceptStep cd co) st = st := by
  induction L generalizing st with
  | nil => rfl
  | cons e L ih =>
    rw [List.foldl_cons] at h ⊢
    have hstep : (acceptStep cd co st e).added_something = false := by
      by_contra hne
      have htrue : (acceptStep cd co st e).added_something = true := by
        revert hne
        cases (acceptStep cd co st e).added_something <;> simp
      have : ∀ (M : List (Nat × Nat × Nat)) (s : GrowState), s.added_something = true →
          (M.foldl (acceptStep cd co) s).added_something = true := by
        intro M
        induction M with
        | nil => exact fun s hs => hs
        | cons f M ihm => exact fun s hs => ihm _ (acceptStep_added_monotone cd co s f hs)
      rw [this L _ htrue] at h
      cases h
    rw [acceptStep_eq_of_not_added cd co st e hstep] at h ⊢
    exact ih st h

lemma growthPass_eq_of_not_added (graph : Graph) (st : GrowState)
    (h : (growthPass graph st).1.added_something = false) :
    (growthPass graph st).1 =
      { st with added_something := false,
                trace := st.trace ++ [TraceEvent.separator] } := by
  have hfold : (growthPass graph st).1 =
      { (((subgraph_neighbors_with_duplicates st.current_cluster graph).map
          (fun node_idx => (node_idx, (score (hsInsert st.current_cluster node_idx) graph).1,
            (score (hsInsert st.current_cluster node_idx) graph).2))).foldl
          (acceptStep (score st.current_cluster graph).1 (score st.current_cluster graph).2)
          { st with added_something := false }) with
        trace := (((subgraph_neighbors_with_duplicates st.current_cluster graph).map
          (fun node_idx => (node_idx, (score (hsInsert st.current_cluster node_idx) graph).1,
            (score (hsInsert st.current_cluster node_idx) graph).2))).foldl
          (acceptStep (score st.current_cluster graph).1 (score st.current_cluster graph).2)
          { st with added_something := false }).trace ++ [TraceEvent.separator] } := rfl
  rw [hfold] at h ⊢
  rw [acceptFold_eq_of_not_added _ _ _ _ (by simpa using h)]

lemma growthPass_cluster_of_not_added (graph : Graph) (st : GrowState)
    (h : (growthPass graph st).1.added_something = false) :
    (growthPass graph st).1.current_cluster = st.current_cluster ∧
    (growthPass graph st).1.node_set = st.node_set ∧
    (growthPass graph st).1.trace = st.trace ++ [TraceEvent.separator] := by
  rw [growthPass_eq_of_not_added graph st h]
  exact ⟨rfl, rfl, rfl⟩

lemma growthPass_empty_frontier (graph : Graph) (st : GrowState)
    (h : subgraph_neighbors_with_duplicates st.current_cluster graph = []) :
    growthPass graph st =
      ({ st with added_something := false,
                 trace := st.trace ++ [TraceEvent.separator] }, []) := by
  unfold growthPass
  rw [h]
  rfl

/-- C9: when growth stalls with an empty candidate frontier (no node outside
the cluster is adjacent to any member), the stall branch indexes the empty
score list (`scores[0]`) and the program panics. -/
theorem C9_empty_frontier_panics (graph : Graph) (fuel : Nat) (st : GrowState)
    (h : subgraph_neighbors_with_duplicates st.current_cluster graph = []) :
    mainLoop graph (fuel + 1) st = LoopOut.panicked := by
  have hgp := growthPass_empty_frontier graph st h
  simp only [mainLoop, hgp]
  simp [stallHandle]

/-- C9 witness: a single isolated node whose cluster is the whole component. -/
theorem C9_witness :
    subgraph_neighbors_with_duplicates [0] ⟨[⟨"A", []⟩], []⟩ = [] ∧
    mainLoop ⟨[⟨"A", []⟩], []⟩ 5 ⟨[0], [], false, []⟩ = LoopOut.panicked :=
  ⟨by decide, C9_empty_frontier_panics ⟨[⟨"A", []⟩], []⟩ 4 ⟨[0], [], false, []⟩ (by decide)⟩

/-- C10: when growth stalls with a non-empty score list but an empty
remaining-node pool, picking the next seed unwraps an empty iterator
(`node_set.iter().next().unwrap()`) and the program panics. -/
theorem C10_empty_pool_panics (graph : Graph) (fuel : Nat) (st : GrowState)
    (h1 : (growthPass graph st).1.added_something = false)
    (h2 : (growthPass graph st).2 ≠ [])
    (h3 : st.node_set = []) :
    mainLoop graph (fuel + 1) st = LoopOut.panicked := by
  obtain ⟨-, hns, -⟩ := growthPass_cluster_of_not_added graph st h1
  rcases hgp : growthPass graph st with ⟨st1, scores⟩
  rw [hgp] at h1 h2 hns
  dsimp only at h1 h2 hns
  simp only [mainLoop, hgp, h1]
  have hsorted : List.insertionSort
      (fun a b => a.2.1 + a.2.2 ≤ b.2.1 + b.2.2) scores ≠ [] := by
    intro hnil
    have hperm := List.perm_insertionSort
      (fun a b : Nat × Nat × Nat => a.2.1 + a.2.2 ≤ b.2.1 + b.2.2) scores
    rw [hnil] at hperm
    exact h2 hperm.symm.eq_nil
  rcases hs : List.insertionSort (fun a b => a.2.1 + a.2.2 ≤ b.2.1 + b.2.2) scores with
    _ | ⟨lowest, rest⟩
  · exact absurd hs hsorted
  · unfold stallHandle
    rw [hs, hns, h3, h1]
    rfl

/-- C10 witness: a stalling cluster with one scored candidate and an already
empty pool. -/
theorem C10_witness :
    (growthPass ⟨[⟨"A", []⟩, ⟨"B", []⟩, ⟨"C", []⟩, ⟨"D", []⟩],
        [⟨0, 1, ⟨[]⟩⟩, ⟨1, 2, ⟨[]⟩⟩, ⟨1, 3, ⟨[]⟩⟩]⟩
      ⟨[0], [], false, []⟩).1.added_something = false ∧
    (growthPass ⟨[⟨"A", []⟩, ⟨"B", []⟩, ⟨"C", []⟩, ⟨"D", []⟩],
        [⟨0, 1, ⟨[]⟩⟩, ⟨1, 2, ⟨[]⟩⟩, ⟨1, 3, ⟨[]⟩⟩]⟩
      ⟨[0], [], false, []⟩).2 ≠ [] ∧
    mainLoop ⟨[⟨"A", []⟩, ⟨"B", []⟩, ⟨"C", []⟩, ⟨"D", []⟩],
        [⟨0, 1, ⟨[]⟩⟩, ⟨1, 2, ⟨[]⟩⟩, ⟨1, 3, ⟨[]⟩⟩]⟩ 5
      ⟨[0], [], false, []⟩ = LoopOut.panicked :=
  ⟨by decide, by decide,
    C10_empty_pool_panics _ 4 ⟨[0], [], false, []⟩ (by decide) (by decide) rfl⟩

/-- C5: after the first growth pass that accepts nothing, the loop behaves as
the non-recursive `stallOutcome` — independently of remaining fuel, so no
further growth pass or restart cycle ever runs — and when the stall branch
completes without panicking, the reported state has the cluster reset to the
head of the unclustered pool, that seed removed from the pool, a final trace
line reporting the seed's fresh score, and a diagnostic line for a
best-scoring rejected candidate. -/
theorem C5_first_stall_exits (graph : Graph) (fuel : Nat) (st : GrowState)
    (h : (growthPass graph st).1.added_something = false) :
    mainLoop graph (fuel + 1) st = stallOutcome graph st ∧
    (∀ st2, stallOutcome graph st = LoopOut.done st2 →
      ∃ next rest, st.node_set = next :: rest ∧
        st2.current_cluster = [next] ∧
        st2.node_set = hsRemove st.node_set next ∧
        st2.trace.getLast? = some (TraceEvent.startingWith next (score [next] graph)) ∧
        ∃ e ∈ (growthPass graph st).2,
          (∀ f ∈ (growthPass graph st).2, e.2.1 + e.2.2 ≤ f.2.1 + f.2.2) ∧
          TraceEvent.lowestWouldHaveBeen e.1 (e.2.1 + e.2.2) ∈ st2.trace) := by
  obtain ⟨-, hns, -⟩ := growthPass_cluster_of_not_added graph st h
  constructor
  · rcases hgp : growthPass graph st with ⟨st1, scores⟩
    rw [hgp] at h
    dsimp only at h
    simp only [mainLoop, stallOutcome, hgp, h]
    rfl
  · intro st2 hdone
    rcases hgp : growthPass graph st with ⟨st1, scores⟩
    rw [hgp] at h hns
    dsimp only at h hns
    unfold stallOutcome at hdone
    rw [hgp] at hdone
    dsimp only at hdone
    unfold stallHandle at hdone
    rcases hs : List.insertionSort (fun a b => a.2.1 + a.2.2 ≤ b.2.1 + b.2.2) scores with
      _ | ⟨lowest, rest'⟩
    · rw [hs] at hdone
      cases hdone
    · rw [hs] at hdone
      rcases hnode : st.node_set with _ | ⟨next, restns⟩
      · rw [hns, hnode] at hdone
        cases hdone
      · rw [hns, hnode] at hdone
        dsimp only at hdone
        rw [LoopOut.done.injEq] at hdone
        refine ⟨next, restns, rfl, ?_, ?_, ?_, ?_⟩
        · rw [← hdone]
        · rw [← hdone]
        · rw [← hdone]
          dsimp only
          rw [List.getLast?_concat]
        · refine ⟨lowest, ?_, ?_, ?_⟩
          · have hmem : lowest ∈ List.insertionSort
                (fun a b => a.2.1 + a.2.2 ≤ b.2.1 + b.2.2) scores := by
              rw [hs]
              exact List.mem_cons_self lowest rest'
            exact (List.mem_insertionSort _).1 hmem
          · intro f hf
            haveI htotal : IsTotal (Nat × Nat × Nat)
                (fun a b => a.2.1 + a.2.2 ≤ b.2.1 + b.2.2) :=
              ⟨fun a b => Nat.le_total _ _⟩
            haveI htrans : IsTrans (Nat × Nat × Nat)
                (fun a b => a.2.1 + a.2.2 ≤ b.2.1 + b.2.2) :=
              ⟨fun a b c hab hbc => Nat.le_trans hab hbc⟩
            have hsortd := List.sorted_insertionSort
              (fun a b : Nat × Nat × Nat => a.2.1 + a.2.2 ≤ b.2.1 + b.2.2) scores
            rw [hs] at hsortd
            have hfmem : f ∈ lowest :: rest' := by
              rw [← hs]
              exact (List.mem_insertionSort _).2 hf
            rcases List.mem_cons.1 hfmem with rfl | hfmem
            · exact Nat.le_refl _
            · exact (List.pairwise_cons.1 hsortd).1 f hfmem
          · rw [← hdone]
            dsimp only
            refine List.mem_append.2 (Or.inl (List.mem_append.2 (Or.inr ?_)))
            refine List.mem_filterMap.2 ⟨lowest, List.mem_cons_self lowest rest', ?_⟩
            rw [if_pos (Nat.le_refl _)]

/-- C5 witness: the path-star graph `A -> B`, `B -> C`, `B -> D` stalls
immediately from cluster `[A]`, and the theorem's conclusion holds there. -/
theorem C5_witness :
    (growthPass ⟨[⟨"A", []⟩, ⟨"B", []⟩, ⟨"C", []⟩, ⟨"D", []⟩],
        [⟨0, 1, ⟨[]⟩⟩, ⟨1, 2, ⟨[]⟩⟩, ⟨1, 3, ⟨[]⟩⟩]⟩
      ⟨[0], [1, 2, 3], false, []⟩).1.added_something = false ∧
    (mainLoop ⟨[⟨"A", []⟩, ⟨"B", []⟩, ⟨"C", []⟩, ⟨"D", []⟩],
        [⟨0, 1, ⟨[]⟩⟩, ⟨1, 2, ⟨[]⟩⟩, ⟨1, 3, ⟨[]⟩⟩]⟩ 5 ⟨[0], [1, 2, 3], false, []⟩ =
      stallOutcome ⟨[⟨"A", []⟩, ⟨"B", []⟩, ⟨"C", []⟩, ⟨"D", []⟩],
        [⟨0, 1, ⟨[]⟩⟩, ⟨1, 2, ⟨[]⟩⟩, ⟨1, 3, ⟨[]⟩⟩]⟩ ⟨[0], [1, 2, 3], false, []⟩ ∧
    (∀ st2, stallOutcome ⟨[⟨"A", []⟩, ⟨"B", []⟩, ⟨"C", []⟩, ⟨"D", []⟩],
        [⟨0, 1, ⟨[]⟩⟩, ⟨1, 2, ⟨[]⟩⟩, ⟨1, 3, ⟨[]⟩⟩]⟩ ⟨[0], [1, 2, 3], false, []⟩ =
          LoopOut.done st2 →
      ∃ next rest, ([1, 2, 3] : List Nat) = next :: rest ∧
        st2.current_cluster = [next] ∧
        st2.node_set = hsRemove [1, 2, 3] next ∧
        st2.trace.getLast? = some (TraceEvent.startingWith next
          (score [next] ⟨[⟨"A", []⟩, ⟨"B", []⟩, ⟨"C", []⟩, ⟨"D", []⟩],
            [⟨0, 1, ⟨[]⟩⟩, ⟨1, 2, ⟨[]⟩⟩, ⟨1, 3, ⟨[]⟩⟩]⟩)) ∧
        ∃ e ∈ (growthPass ⟨[⟨"A", []⟩, ⟨"B", []⟩, ⟨"C", []⟩, ⟨"D", []⟩],
            [⟨0, 1, ⟨[]⟩⟩, ⟨1, 2, ⟨[]⟩⟩, ⟨1, 3, ⟨[]⟩⟩]⟩ ⟨[0], [1, 2, 3], false, []⟩).2,
          (∀ f ∈ (growthPass ⟨[⟨"A", []⟩, ⟨"B", []⟩, ⟨"C", []⟩, ⟨"D", []⟩],
              [⟨0, 1, ⟨[]⟩⟩, ⟨1, 2, ⟨[]⟩⟩, ⟨1, 3, ⟨[]⟩⟩]⟩ ⟨[0], [1, 2, 3], false, []⟩).2,
            e.2.1 + e.2.2 ≤ f.2.1 + f.2.2) ∧
          TraceEvent.lowestWouldHaveBeen e.1 (e.2.1 + e.2.2) ∈ st2.trace)) :=
  ⟨by decide,
    C5_first_stall_exits ⟨[⟨"A", []⟩, ⟨"B", []⟩, ⟨"C", []⟩, ⟨"D", []⟩],
      [⟨0, 1, ⟨[]⟩⟩, ⟨1, 2, ⟨[]⟩⟩, ⟨1, 3, ⟨[]⟩⟩]⟩ 4 ⟨[0], [1, 2, 3], false, []⟩ (by decide)⟩

lemma idMapCall_correct (dg : DotGraph) (h : CacheConsistent dg) :
    dg.idMapCall.1 = computeIdMap dg.graph ∧ dg.idMapCall.2.graph = dg.graph ∧
      CacheConsistent dg.idMapCall.2 := by
  unfold DotGraph.idMapCall
  cases hm : dg.id_map with
  | none =>
    refine ⟨rfl, rfl, Or.inr rfl, ?_⟩
    exact h.2
  | some m =>
    rcases h.1 with hnone | hsome
    · rw [hm] at hnone
      cases hnone
    · rw [hm] at hsome
      refine ⟨by injection hsome, rfl, h.1, h.2⟩

lemma labelMapCall_correct (dg : DotGraph) (h : CacheConsistent dg) :
    dg.labelMapCall.1 = computeLabelMap dg.graph ∧ dg.labelMapCall.2.graph = dg.graph ∧
      CacheConsistent dg.labelMapCall.2 := by
  unfold DotGraph.labelMapCall
  cases hm : dg.label_map with
  | none =>
    refine ⟨rfl, rfl, h.1, Or.inr rfl⟩
  | some m =>
    rcases h.2 with hnone | hsome
    · rw [hm] at hnone
      cases hnone
    · rw [hm] at hsome
      refine ⟨by injection hsome, rfl, h.1, h.2⟩

lemma mutate_consistent (dg : DotGraph) (f : Graph → Graph) :
    CacheConsistent (dg.mutate f) :=
  ⟨Or.inl rfl, Or.inl rfl⟩

/-- C1: the `DerefMut` impl discards both memoized maps, so for every sequence
of structural mutations (performed through `DerefMut`) interleaved with
`id_map()`/`label_map()` calls starting from a cache-consistent wrapper, every
call returns exactly the map a full recomputation over the engine graph at
call time would produce — stale caches are never observable. -/
theorem C1_cache_freshness (dg : DotGraph) (ops : List GraphOp)
    (h : CacheConsistent dg) :
    ∀ q ∈ (runOps dg ops).2,
      q.result = (if q.isId then computeIdMap q.graphAtCall
                  else computeLabelMap q.graphAtCall) := by
  induction ops generalizing dg with
  | nil =>
    intro q hq
    simp [runOps] at hq
  | cons op rest ih =>
    intro q hq
    cases op with
    | mutate f =>
      exact ih (dg.mutate f) (mutate_consistent dg f) q (by simpa [runOps] using hq)
    | queryId =>
      obtain ⟨hm, hg, hcc⟩ := idMapCall_correct dg h
      have hq' : q = ⟨true, dg.idMapCall.1, dg.graph⟩ ∨
          q ∈ (runOps dg.idMapCall.2 rest).2 := by
        simpa [runOps] using hq
      rcases hq' with rfl | hq'
      · simpa using hm
      · exact ih dg.idMapCall.2 hcc q hq'
    | queryLabel =>
      obtain ⟨hm, hg, hcc⟩ := labelMapCall_correct dg h
      have hq' : q = ⟨false, dg.labelMapCall.1, dg.graph⟩ ∨
          q ∈ (runOps dg.labelMapCall.2 rest).2 := by
        simpa [runOps] using hq
      rcases hq' with rfl | hq'
      · simpa using hm
      · exact ih dg.labelMapCall.2 hcc q hq'

/-- C1 witness: a fresh two-node wrapper, mutated between reads; both reads
return the recomputed maps. -/
theorem C1_witness :
    CacheConsistent (DotGraph.new false GraphType.digraph none [] [] []
      ⟨[⟨"a", [("label", "x")]⟩], []⟩) ∧
    ∀ q ∈ (runOps (DotGraph.new false GraphType.digraph none [] [] []
        ⟨[⟨"a", [("label", "x")]⟩], []⟩)
      [GraphOp.queryId, GraphOp.queryLabel,
       GraphOp.mutate (fun g => (g.addNode ⟨"b", []⟩).1),
       GraphOp.queryId, GraphOp.queryLabel]).2,
      q.result = (if q.isId then computeIdMap q.graphAtCall
                  else computeLabelMap q.graphAtCall) :=
  ⟨by decide,
    C1_cache_freshness (DotGraph.new false GraphType.digraph none [] [] []
        ⟨[⟨"a", [("label", "x")]⟩], []⟩)
      [GraphOp.queryId, GraphOp.queryLabel,
       GraphOp.mutate (fun g => (g.addNode ⟨"b", []⟩).1),
       GraphOp.queryId, GraphOp.queryLabel]
      (by decide)⟩

lemma foldl_addNode_nodes (ns : List Node) (g : Graph) :
    (ns.foldl (fun g n => (g.addNode n).1) g).nodes = g.nodes ++ ns := by
  induction ns generalizing g with
  | nil => simp
  | cons n ns ih =>
    rw [List.foldl_cons, ih]
    simp [Graph.addNode]

lemma foldl_addEdge_nodes (es : List (Edge × Nat × Nat)) (g : Graph) :
    (es.foldl (fun g e => g.addEdge e.2.1 e.2.2 e.1) g).nodes = g.nodes := by
  induction es generalizing g with
  | nil => rfl
  | cons e es ih =>
    rw [List.foldl_cons, ih]
    simp [Graph.addEdge]

lemma foldl_mutate_addEdge (es : List (Edge × Nat × Nat)) (dg : DotGraph) :
    (es.foldl (fun dg e => dg.mutate (fun g => g.addEdge e.2.1 e.2.2 e.1)) dg).graph.edges =
      dg.graph.edges ++ es.map (fun e => EdgeRec.mk e.2.1 e.2.2 e.1) := by
  induction es generalizing dg with
  | nil => simp
  | cons e es ih =>
    rw [List.foldl_cons, ih]
    simp [DotGraph.mutate, DotGraph.derefMut, Graph.addEdge]

lemma lookupA_isSome_iff {α : Type} (m : List (String × α)) (k : String) :
    (lookupA m k).isSome = true ↔ k ∈ m.map Prod.fst := by
  unfold lookupA
  cases hf : m.find? (fun p => p.1 == k) with
  | none =>
    rw [List.find?_eq_none] at hf
    simp only [Option.map_none', Option.isSome_none, Bool.false_eq_true, false_iff]
    intro hk
    rcases List.mem_map.1 hk with ⟨p, hp, rfl⟩
    exact hf p hp (by simp)
  | some p =>
    have hk : p.1 = k := by simpa using List.find?_some hf
    have hm : p ∈ m := List.mem_of_find?_eq_some hf
    simp only [Option.map_some', Option.isSome_some, true_iff]
    exact hk ▸ List.mem_map_of_mem Prod.fst hm

lemma insertA_keys_mem {α : Type} (m : List (String × α)) (k : String) (v : α) (k' : String) :
    k' ∈ (insertA m k v).map Prod.fst ↔ k' = k ∨ k' ∈ m.map Prod.fst := by
  unfold insertA
  by_cases hp : (m.find? (fun p => p.1 == k)).isSome = true
  · rw [if_pos hp]
    rcases List.find?_isSome.1 hp with ⟨p, hpm, hpk⟩
    have hpk' : p.1 = k := by simpa using hpk
    have hkeys : (m.map (fun p => if p.1 == k then (k, v) else p)).map Prod.fst =
        m.map Prod.fst := by
      rw [List.map_map]
      refine List.map_congr_left ?_
      intro q hq
      by_cases hqk : q.1 = k
      · simp [hqk]
      · simp [hqk]
    rw [hkeys]
    constructor
    · exact fun h => Or.inr h
    · rintro (rfl | h)
      · exact hpk' ▸ List.mem_map_of_mem Prod.fst hpm
      · exact h
  · rw [if_neg hp]
    simp only [List.map_append, List.map_cons, List.map_nil, List.mem_append,
      List.mem_singleton]
    exact Or.comm

lemma foldl_insertA_keys_mem {α : Type} (l : List (String × α)) (m : List (String × α))
    (k : String) :
    (k ∈ (l.foldl (fun m p => insertA m p.1 p.2) m).map Prod.fst) ↔
      k ∈ m.map Prod.fst ∨ k ∈ l.map Prod.fst := by
  induction l generalizing m with
  | nil => simp
  | cons p l ih =>
    rw [List.foldl_cons, ih, insertA_keys_mem]
    simp only [List.map_cons, List.mem_cons]
    tauto

lemma map_range_getD (l : List Node) (d : Node) :
    (List.range l.length).map (fun i => l.getD i d) = l := by
  induction l with
  | nil => simp
  | cons a l ih =>
    rw [List.length_cons, List.range_succ_eq_map, List.map_cons, List.map_map]
    have h2 : ((fun i => (a :: l).getD i d) ∘ Nat.succ) = (fun i => l.getD i d) := rfl
    rw [h2, ih]
    rfl

lemma computeIdMap_isSome_iff (g : Graph) (s : String) :
    (lookupA (computeIdMap g) s).isSome = true ↔ s ∈ g.nodes.map Node.id := by
  rw [lookupA_isSome_iff]
  unfold computeIdMap
  rw [foldl_insertA_keys_mem]
  simp only [List.map_nil, List.mem_nil_iff, false_or, List.map_map]
  unfold Graph.nodeIndices Graph.nodeAt
  have hkeys : (List.range g.nodes.length).map
      (Prod.fst ∘ fun ix => ((g.nodes.getD ix ⟨"", []⟩).id, ix)) =
      g.nodes.map Node.id := by
    have : (Prod.fst ∘ fun ix => ((g.nodes.getD ix ⟨"", []⟩).id, ix)) =
        (Node.id ∘ fun i => g.nodes.getD i ⟨"", []⟩) := rfl
    rw [this, ← List.map_map, map_range_getD]
  rw [hkeys]

lemma base_graph_parts (b : DotGraphBuilder) :
    b.base.graph.nodes = (b.graph.getD ⟨[], []⟩).nodes ++ b.nodes.getD [] := by
  unfold DotGraphBuilder.base
  cases hn : b.nodes with
  | none =>
    cases he : b.edges with
    | none => simp [DotGraph.new]
    | some es => simp [DotGraph.new, foldl_addEdge_nodes]
  | some ns =>
    cases he : b.edges with
    | none => simp [DotGraph.new, foldl_addNode_nodes]
    | some es => simp [DotGraph.new, foldl_addEdge_nodes, foldl_addNode_nodes]

/-- C6: the builder inserts the initial nodes and edges before constructing
the wrapper and only then invokes the edge-derivation function on it, so for
every builder configuration the id-map lookup of any initially supplied
node's id on the wrapper seen by the derivation function succeeds, and when
the derivation function returns edges, `build` appends exactly those edges to
the wrapper after the derivation step. -/
theorem C6_build_ordering (b : DotGraphBuilder) :
    (∀ n ∈ b.nodes.getD [], (lookupA (computeIdMap b.base.graph) n.id).isSome = true) ∧
    (∀ f es, b.edges_fn = some f → f b.base = some es →
      ∃ dg, b.build = some dg ∧
        dg.graph.edges = b.base.graph.edges ++
          es.map (fun e => EdgeRec.mk e.2.1 e.2.2 e.1)) := by
  constructor
  · intro n hn
    rw [computeIdMap_isSome_iff, base_graph_parts]
    exact List.mem_map_of_mem Node.id (List.mem_append.2 (Or.inr hn))
  · intro f es hf hfb
    refine ⟨_, ?_, foldl_mutate_addEdge es b.base⟩
    unfold DotGraphBuilder.build
    rw [hf]
    dsimp only
    rw [hfb]
    rfl

/-- C6 witness: a builder with two initial nodes and a derivation function
returning one edge; the node id resolves on the pre-derivation wrapper and the
returned edge lands in the final graph. -/
theorem C6_witness :
    (lookupA (computeIdMap (((DotGraphBuilder.new GraphType.digraph).set_nodes
        [⟨"x", []⟩, ⟨"y", []⟩]).set_edges_fn
        (fun _ => some [(⟨[]⟩, 0, 1)])).base.graph) (Node.mk "x" []).id).isSome = true ∧
    ∃ dg, (((DotGraphBuilder.new GraphType.digraph).set_nodes
        [⟨"x", []⟩, ⟨"y", []⟩]).set_edges_fn
        (fun _ => some [(⟨[]⟩, 0, 1)])).build = some dg ∧
      dg.graph.edges = (((DotGraphBuilder.new GraphType.digraph).set_nodes
        [⟨"x", []⟩, ⟨"y", []⟩]).set_edges_fn
        (fun _ => some [(⟨[]⟩, 0, 1)])).base.graph.edges ++
        ([(⟨[]⟩, 0, 1)] : List (Edge × Nat × Nat)).map (fun e => EdgeRec.mk e.2.1 e.2.2 e.1) :=
  ⟨(C6_build_ordering _).1 (Node.mk "x" []) (by decide),
   (C6_build_ordering _).2 (fun _ => some [(⟨[]⟩, 0, 1)]) [(⟨[]⟩, 0, 1)] rfl rfl⟩

lemma addNodeIfAbsent_inv (st : List String × Graph) (nid : String)
    (h : InvNodeIds st) : InvNodeIds (addNodeIfAbsent st nid) := by
  unfold addNodeIfAbsent
  dsimp only
  by_cases hc : nid ∈ st.1
  · rw [if_pos (by simpa using hc)]
    exact h
  · rw [if_neg (by simpa using hc)]
    intro s
    simp only [List.mem_append, List.mem_singleton, Graph.addNode, List.map_append,
      List.map_cons, List.map_nil]
    rw [← h s]

lemma addNodeIfAbsent_mono (st : List String × Graph) (nid s : String)
    (h : s ∈ st.1) : s ∈ (addNodeIfAbsent st nid).1 := by
  unfold addNodeIfAbsent
  dsimp only
  split
  · exact h
  · exact List.mem_append.2 (Or.inl h)

lemma addNodeIfAbsent_self (st : List String × Graph) (nid : String) :
    nid ∈ (addNodeIfAbsent st nid).1 := by
  unfold addNodeIfAbsent
  dsimp only
  by_cases hc : nid ∈ st.1
  · rw [if_pos (by simpa using hc)]
    exact hc
  · rw [if_neg (by simpa using hc)]
    exact List.mem_append.2 (Or.inr (List.mem_singleton.2 rfl))

lemma addNodeIfAbsent_filter (st : List String × Graph) (nid x : String)
    (hx : x ∈ st.1) :
    (addNodeIfAbsent st nid).2.nodes.filter (fun n => n.id == x) =
      st.2.nodes.filter (fun n => n.id == x) := by
  unfold addNodeIfAbsent
  dsimp only
  by_cases hc : nid ∈ st.1
  · rw [if_pos (by simpa using hc)]
  · rw [if_neg (by simpa using hc)]
    have hne : nid ≠ x := fun he => hc (he ▸ hx)
    simp only [Graph.addNode, List.filter_append, List.filter_cons, List.filter_nil]
    have : ((⟨nid, []⟩ : Node).id == x) = false := by simpa using hne
    simp [this]

lemma innerFold_inv (ids : List String) (st : List String × Graph)
    (h : InvNodeIds st) : InvNodeIds (ids.foldl addNodeIfAbsent st) := by
  induction ids generalizing st with
  | nil => exact h
  | cons i ids ih => exact ih _ (addNodeIfAbsent_inv st i h)

lemma innerFold_mono (ids : List String) (st : List String × Graph) (s : String)
    (h : s ∈ st.1) : s ∈ (ids.foldl addNodeIfAbsent st).1 := by
  induction ids generalizing st with
  | nil => exact h
  | cons i ids ih => exact ih _ (addNodeIfAbsent_mono st i s h)

lemma innerFold_covers (ids : List String) (st : List String × Graph) (s : String)
    (h : s ∈ ids) : s ∈ (ids.foldl addNodeIfAbsent st).1 := by
  induction ids generalizing st with
  | nil => cases h
  | cons i ids ih =>
    rcases List.mem_cons.1 h with rfl | h
    · exact innerFold_mono ids _ s (addNodeIfAbsent_self st s)
    · exact ih _ h

lemma innerFold_filter (ids : List String) (st : List String × Graph) (x : String)
    (hx : x ∈ st.1) :
    (ids.foldl addNodeIfAbsent st).2.nodes.filter (fun n => n.id == x) =
      st.2.nodes.filter (fun n => n.id == x) := by
  induction ids generalizing st with
  | nil => rfl
  | cons i ids ih =>
    rw [List.foldl_cons, ih _ (addNodeIfAbsent_mono st i x hx),
      addNodeIfAbsent_filter st i x hx]

lemma addImplicitNodes_inv (edges : List EdgeInternal) (st : List String × Graph)
    (h : InvNodeIds st) : InvNodeIds (addImplicitNodes edges st) := by
  unfold addImplicitNodes
  induction edges generalizing st with
  | nil => exact h
  | cons e edges ih => exact ih _ (innerFold_inv e.nodes st h)

lemma addImplicitNodes_mono (edges : List EdgeInternal) (st : List String × Graph)
    (s : String) (h : s ∈ st.1) : s ∈ (addImplicitNodes edges st).1 := by
  unfold addImplicitNodes
  induction edges generalizing st with
  | nil => exact h
  | cons e edges ih => exact ih _ (innerFold_mono e.nodes st s h)

lemma addImplicitNodes_covers (edges : List EdgeInternal) (st : List String × Graph)
    (e : EdgeInternal) (he : e ∈ edges) (s : String) (hs : s ∈ e.nodes) :
    s ∈ (addImplicitNodes edges st).1 := by
  unfold addImplicitNodes
  induction edges generalizing st with
  | nil => cases he
  | cons f edges ih =>
    rcases List.mem_cons.1 he with rfl | he
    · exact addImplicitNodes_mono edges _ s (innerFold_covers e.nodes st s hs)
    · exact ih _ he

lemma addImplicitNodes_filter (edges : List EdgeInternal) (st : List String × Graph)
    (x : String) (hx : x ∈ st.1) :
    (addImplicitNodes edges st).2.nodes.filter (fun n => n.id == x) =
      st.2.nodes.filter (fun n => n.id == x) := by
  unfold addImplicitNodes
  induction edges generalizing st with
  | nil => rfl
  | cons e edges ih =>
    rw [List.foldl_cons, ih _ (innerFold_mono e.nodes st x hx),
      innerFold_filter e.nodes st x hx]

lemma addExplicitNodes_cons (n : Node) (ns : List Node) (st : List String × Graph) :
    addExplicitNodes (n :: ns) st =
      addExplicitNodes ns
        (if st.1.contains n.id then st else (st.1 ++ [n.id], (st.2.addNode n).1)) := rfl

lemma appendNode_inv (st : List String × Graph) (n : Node) (h : InvNodeIds st) :
    InvNodeIds (st.1 ++ [n.id], (st.2.addNode n).1) := by
  intro s
  simp only [List.mem_append, List.mem_singleton, Graph.addNode, List.map_append,
    List.map_cons, List.map_nil]
  rw [← h s]

lemma addExplicitNodes_inv (ns : List Node) (st : List String × Graph)
    (h : InvNodeIds st) : InvNodeIds (addExplicitNodes ns st) := by
  induction ns generalizing st with
  | nil => exact h
  | cons n ns ih =>
    rw [addExplicitNodes_cons]
    by_cases hc : n.id ∈ st.1
    · rw [if_pos (by simpa using hc)]
      exact ih st h
    · rw [if_neg (by simpa using hc)]
      exact ih _ (appendNode_inv st n h)

lemma addExplicitNodes_mono (ns : List Node) (st : List String × Graph) (s : String)
    (h : s ∈ st.1) : s ∈ (addExplicitNodes ns st).1 := by
  induction ns generalizing st with
  | nil => exact h
  | cons n ns ih =>
    rw [addExplicitNodes_cons]
    by_cases hc : n.id ∈ st.1
    · rw [if_pos (by simpa using hc)]
      exact ih st h
    · rw [if_neg (by simpa using hc)]
      exact ih _ (List.mem_append.2 (Or.inl h))

lemma addExplicitNodes_covers (ns : List Node) (st : List String × Graph) (n : Node)
    (h : n ∈ ns) : n.id ∈ (addExplicitNodes ns st).1 := by
  induction ns generalizing st with
  | nil => cases h
  | cons m ns ih =>
    rw [addExplicitNodes_cons]
    rcases List.mem_cons.1 h with rfl | h
    · by_cases hc : n.id ∈ st.1
      · rw [if_pos (by simpa using hc)]
        exact addExplicitNodes_mono ns st n.id hc
      · rw [if_neg (by simpa using hc)]
        exact addExplicitNodes_mono ns _ n.id
          (List.mem_append.2 (Or.inr (List.mem_singleton.2 rfl)))
    · by_cases hc : m.id ∈ st.1
      · rw [if_pos (by simpa using hc)]
        exact ih st h
      · rw [if_neg (by simpa using hc)]
        exact ih _ h

lemma addExplicitNodes_filter (ns : List Node) (st : List String × Graph) (x : String)
    (h : InvNodeIds st) :
    (addExplicitNodes ns st).2.nodes.filter (fun n => n.id == x) =
      st.2.nodes.filter (fun n => n.id == x) ++
        (if x ∈ st.1 then [] else ((ns.filter (fun n => n.id == x)).take 1)) := by
  induction ns generalizing st with
  | nil =>
    by_cases hx : x ∈ st.1 <;> simp [hx, addExplicitNodes]
  | cons n ns ih =>
    rw [addExplicitNodes_cons]
    by_cases hc : n.id ∈ st.1
    · rw [if_pos (by simpa using hc)]
      rw [ih st h]
      congr 1
      by_cases hx : x ∈ st.1
      · simp [hx]
      · rw [if_neg hx, if_neg hx]
        have hnx : (n.id == x) = false := by
          have hne : n.id ≠ x := fun he => hx (he ▸ hc)
          simpa using hne
        rw [List.filter_cons, hnx]
        simp
    · rw [if_neg (by simpa using hc)]
      rw [ih _ (appendNode_inv st n h)]
      by_cases hnx : n.id = x
      · subst hnx
        have hin : n.id ∈ st.1 ++ [n.id] :=
          List.mem_append.2 (Or.inr (List.mem_singleton.2 rfl))
        rw [if_pos hin, if_neg hc]
        simp only [Graph.addNode, List.filter_append, List.filter_cons, List.filter_nil]
        simp [List.filter_cons]
      · have hbx : (n.id == x) = false := by simpa using hnx
        have hiff : x ∈ st.1 ++ [n.id] ↔ x ∈ st.1 := by
          simp only [List.mem_append, List.mem_singleton]
          constructor
          · rintro (hx | rfl)
            · exact hx
            · exact absurd rfl hnx
          · exact fun hx => Or.inl hx
        simp only [Graph.addNode, List.filter_append, List.filter_cons, List.filter_nil,
          hbx, List.filter_cons]
        by_cases hx : x ∈ st.1
        · rw [if_pos (hiff.2 hx), if_pos hx]
          simp
        · rw [if_neg (fun hh => hx (hiff.1 hh)), if_neg hx]
          simp [hbx]

lemma mapM_isSome {α β : Type} (f : α → Option β) (l : List α)
    (h : ∀ a ∈ l, (f a).isSome = true) : (l.mapM f).isSome = true := by
  induction l with
  | nil => rfl
  | cons a l ih =>
    rcases Option.isSome_iff_exists.1 (h a (List.mem_cons_self a l)) with ⟨b, hb⟩
    have hrest := ih (fun a ha => h a (List.mem_cons_of_mem _ ha))
    rcases Option.isSome_iff_exists.1 hrest with ⟨bs, hbs⟩
    rw [List.mapM_cons, hb, hbs]
    rfl

lemma parseEdgeFn_isSome (edges : List EdgeInternal) (dg : DotGraph)
    (hcache : dg.id_map = none)
    (hcov : ∀ e ∈ edges, ∀ s ∈ e.nodes, s ∈ dg.graph.nodes.map Node.id) :
    (parseEdgeFn edges dg).isSome = true := by
  unfold parseEdgeFn
  apply mapM_isSome
  intro t ht
  rcases List.mem_flatMap.1 ht with ⟨e, he, hte⟩
  rcases List.mem_map.1 hte with ⟨p, hp, rfl⟩
  obtain ⟨h1, h2⟩ := List.of_mem_zip hp
  have hid : dg.idMapCall.1 = computeIdMap dg.graph := by
    unfold DotGraph.idMapCall
    rw [hcache]
  have l1 : (lookupA dg.idMapCall.1 p.1).isSome = true := by
    rw [hid, computeIdMap_isSome_iff]
    exact hcov e he p.1 h1
  have l2 : (lookupA dg.idMapCall.1 p.2).isSome = true := by
    rw [hid, computeIdMap_isSome_iff]
    exact hcov e he p.2 (List.mem_of_mem_tail h2)
  rcases Option.isSome_iff_exists.1 l1 with ⟨si, hsi⟩
  rcases Option.isSome_iff_exists.1 l2 with ⟨ti, hti⟩
  dsimp only
  rw [hsi, hti]
  rfl

/-- C7: every id referenced by an edge statement is present as a node (added
explicitly or implicitly) before edge resolution, so every id-map lookup in
the edge-derivation step succeeds and `parse` never hits the unwrap panic —
for every parsed statement list, `parse` returns a graph. -/
theorem C7_edge_lookups_total (gi : GraphInternal) : (parse gi).isSome = true := by
  rcases hpart : statementsPartition gi.statements with ⟨ga, na, ea, nodes, edges⟩
  rcases hbuilt : addImplicitNodes edges (addExplicitNodes nodes ([], ⟨[], []⟩)) with
    ⟨node_id_set, graph⟩
  have hparse : parse gi =
      ((((((((DotGraphBuilder.new gi._type).set_strict gi.strict).set_id
        gi.id).set_graph_attributes ga).set_node_attributes na).set_edge_attributes
        ea).set_graph graph).set_edges_fn (parseEdgeFn edges)).build := by
    unfold parse
    rw [hpart]
    dsimp only
    rw [hbuilt]
  have hinv0 : InvNodeIds ([], (⟨[], []⟩ : Graph)) := by
    intro s
    simp
  have hinv := addImplicitNodes_inv edges _ (addExplicitNodes_inv nodes _ hinv0)
  rw [hbuilt] at hinv
  have hcov : ∀ e ∈ edges, ∀ s ∈ e.nodes, s ∈ graph.nodes.map Node.id := by
    intro e he s hs
    have hcover := addImplicitNodes_covers edges (addExplicitNodes nodes ([], ⟨[], []⟩))
      e he s hs
    rw [hbuilt] at hcover
    exact (hinv s).1 hcover
  have hsome := parseEdgeFn_isSome edges
    (DotGraph.new gi.strict gi._type gi.id ga na ea graph) rfl hcov
  rcases Option.isSome_iff_exists.1 hsome with ⟨l, hl⟩
  rw [hparse]
  show ((parseEdgeFn edges
    (DotGraph.new gi.strict gi._type gi.id ga na ea graph)).map
      (fun edges => edges.foldl
        (fun dg e => dg.mutate (fun g => g.addEdge e.2.1 e.2.2 e.1))
        (DotGraph.new gi.strict gi._type gi.id ga na ea graph))).isSome = true
  rw [hl]
  rfl

lemma foldl_mutate_addEdge_nodes (es : List (Edge × Nat × Nat)) (dg : DotGraph) :
    (es.foldl (fun dg e => dg.mutate (fun g => g.addEdge e.2.1 e.2.2 e.1)) dg).graph.nodes =
      dg.graph.nodes := by
  induction es generalizing dg with
  | nil => rfl
  | cons e es ih =>
    rw [List.foldl_cons, ih]
    rfl

lemma build_nodes (b : DotGraphBuilder) (dg : DotGraph) (h : b.build = some dg) :
    dg.graph.nodes = b.base.graph.nodes := by
  unfold DotGraphBuilder.build at h
  cases hf : b.edges_fn with
  | none =>
    rw [hf] at h
    cases h
    rfl
  | some f =>
    rw [hf] at h
    dsimp only at h
    cases hfb : f b.base with
    | none =>
      rw [hfb] at h
      cases h
    | some es =>
      rw [hfb] at h
      have : es.foldl (fun dg e => dg.mutate (fun g => g.addEdge e.2.1 e.2.2 e.1)) b.base =
          dg := by
        injection h
      rw [← this, foldl_mutate_addEdge_nodes]

/-- C8: when a statement list declares the same node id several times, the
parsed graph contains exactly one node with that id, namely the first
declaration in statement order, attributes included; later duplicate
declarations are discarded. -/
theorem C8_duplicate_node_ids_first_wins (gi : GraphInternal) (dg : DotGraph)
    (hparse : parse gi = some dg) (x : String) (n1 : Node) (rest : List Node)
    (hdecls : ((statementsPartition gi.statements).2.2.2.1).filter
      (fun n => n.id == x) = n1 :: rest) :
    dg.graph.nodes.filter (fun n => n.id == x) = [n1] := by
  rcases hpart : statementsPartition gi.statements with ⟨ga, na, ea, nodes, edges⟩
  rw [hpart] at hdecls
  dsimp only at hdecls
  rcases hbuilt : addImplicitNodes edges (addExplicitNodes nodes ([], ⟨[], []⟩)) with
    ⟨node_id_set, graph⟩
  have hparse2 : ((((((((DotGraphBuilder.new gi._type).set_strict gi.strict).set_id
      gi.id).set_graph_attributes ga).set_node_attributes na).set_edge_attributes
      ea).set_graph graph).set_edges_fn (parseEdgeFn edges)).build = some dg := by
    unfold parse at hparse
    rw [hpart] at hparse
    dsimp only at hparse
    rw [hbuilt] at hparse
    exact hparse
  have hnodes : dg.graph.nodes = graph.nodes :=
    build_nodes _ dg hparse2
  rw [hnodes]
  have hinv0 : InvNodeIds ([], (⟨[], []⟩ : Graph)) := by
    intro s
    simp
  have hn1mem : n1 ∈ nodes.filter (fun n => n.id == x) := by
    rw [hdecls]
    exact List.mem_cons_self n1 rest
  have hxid : n1.id = x := by
    simpa using List.of_mem_filter hn1mem
  have hxin : x ∈ (addExplicitNodes nodes ([], ⟨[], []⟩)).1 :=
    hxid ▸ addExplicitNodes_covers nodes ([], ⟨[], []⟩) n1 (List.mem_of_mem_filter hn1mem)
  have himp := addImplicitNodes_filter edges (addExplicitNodes nodes ([], ⟨[], []⟩)) x hxin
  rw [hbuilt] at himp
  dsimp only at himp
  rw [himp, addExplicitNodes_filter nodes ([], ⟨[], []⟩) x hinv0]
  simp only [List.filter_nil, List.nil_append, List.mem_nil_iff, if_false, if_neg]
  rw [hdecls]
  rfl

/-- C8 witness: the id `a` declared twice with different attributes; the
parsed graph keeps exactly the first declaration. -/
theorem C8_witness :
    parse ⟨false, GraphType.digraph, none,
      [Statement.node ⟨"a", [("k", "1")]⟩, Statement.node ⟨"a", [("k", "2")]⟩,
       Statement.edge ⟨[], ["a", "b"]⟩]⟩ =
      some (DotGraph.mk false GraphType.digraph none [] [] []
        ⟨[⟨"a", [("k", "1")]⟩, ⟨"b", []⟩], [⟨0, 1, ⟨[]⟩⟩]⟩ none none) ∧
    (DotGraph.mk false GraphType.digraph none [] [] []
        ⟨[⟨"a", [("k", "1")]⟩, ⟨"b", []⟩], [⟨0, 1, ⟨[]⟩⟩]⟩ none
        none).graph.nodes.filter (fun n => n.id == "a") = [⟨"a", [("k", "1")]⟩] :=
  ⟨by decide,
    C8_duplicate_node_ids_first_wins
      ⟨false, GraphType.digraph, none,
        [Statement.node ⟨"a", [("k", "1")]⟩, Statement.node ⟨"a", [("k", "2")]⟩,
         Statement.edge ⟨[], ["a", "b"]⟩]⟩
      (DotGraph.mk false GraphType.digraph none [] [] []
        ⟨[⟨"a", [("k", "1")]⟩, ⟨"b", []⟩], [⟨0, 1, ⟨[]⟩⟩]⟩ none none)
      (by decide) "a" ⟨"a", [("k", "1")]⟩ [⟨"a", [("k", "2")]⟩] (by decide)⟩
